import Mathlib

/-
Verification development for the Markdown conversion engine of gdocs.nvim
(src/python/gdocs_server.py). Strings are modelled as List Char; machine
integers do not occur (all Python ints here are nonnegative list offsets).
Each definition is a shallow embedding of the correspondingly named Python
function; comments point to the source lines.
-/

namespace GDocs

/-- Python whitespace class as used by str.strip and the regex class \s
(ASCII part; the inputs handled here are ASCII or fixed literals). -/
def isPySpace (c : Char) : Bool :=
  c == ' ' || c == '\t' || c == '\n' || c == '\r' || c == '\x0b' || c == '\x0c'

/-- Python rstrip applied with a line-break argument: drop every trailing
line-break character (gdocs_server.py lines 257 and 303). -/
def dropTrailingNl (l : List Char) : List Char :=
  (l.reverse.dropWhile (fun c => c == '\n')).reverse

/-- Python str.strip with no argument: trim whitespace on both ends
(gdocs_server.py line 341). -/
def stripStr (l : List Char) : List Char :=
  ((l.dropWhile isPySpace).reverse.dropWhile isPySpace).reverse

/-- Python sep.join(parts) (gdocs_server.py lines 244, 344, 348, 351). -/
def joinSep (sep : List Char) : List (List Char) → List Char
  | [] => []
  | [x] => x
  | x :: y :: rest => x ++ sep ++ joinSep sep (y :: rest)

/-- Python markdown.split applied with a line-break separator
(gdocs_server.py line 356): n separators yield n+1 pieces, empty pieces kept. -/
def splitNl : List Char → List (List Char)
  | [] => [[]]
  | c :: rest =>
    if c = '\n' then [] :: splitNl rest
    else
      match splitNl rest with
      | l :: ls => (c :: l) :: ls
      | [] => [[c]]

/-- Text style set of a run: presence flags plus an optional link url
(gdocs_server.py lines 296, 309-317; a link whose url is the empty string
counts as absent, matching the Python truthiness test on line 315). -/
structure TextStyle where
  bold : Bool
  italic : Bool
  strikethrough : Bool
  link : Option (List Char)
deriving DecidableEq

/-- A text run: payload plus style (gdocs_server.py lines 293-296). -/
structure TextRun where
  content : List Char
  textStyle : TextStyle
deriving DecidableEq

/-- A paragraph element: the source only recognizes elements carrying a
textRun and skips the rest (gdocs_server.py lines 253-255). -/
inductive ParagraphElement
  | textRun (run : TextRun)
  | other
deriving DecidableEq

/-- Bullet descriptor (gdocs_server.py lines 275-276; a missing
nestingLevel defaults to 0, which the Nat field absorbs). -/
structure BulletDesc where
  listId : List Char
  nestingLevel : Nat
deriving DecidableEq

/-- Paragraph data: named style, optional bullet, ordered elements
(gdocs_server.py lines 246-250). -/
structure ParagraphData where
  namedStyleType : List Char
  bullet : Option BulletDesc
  elements : List ParagraphElement
deriving DecidableEq

/-- List style table: listId mapped to the glyphType string of each
nesting level (flattening of lists[id].listProperties.nestingLevels with
per-level glyphType, defaults empty; gdocs_server.py lines 279-283). -/
abbrev ListsTable := List (List Char × List (List Char))

/-- Table cell: the ordered paragraphs of the cell content; elements of
other kinds are skipped by the source (gdocs_server.py lines 335-341). -/
abbrev Cell := List ParagraphData

abbrev Row := List Cell

/-- Block element of the document body (gdocs_server.py lines 233-242);
unrecognized kinds are skipped. -/
inductive BlockElement
  | paragraph (p : ParagraphData)
  | table (rows : List Row)
  | sectionBreak
  | other
deriving DecidableEq

/-- Embedding of _text_run_to_markdown (gdocs_server.py lines 293-322). -/
def textRunToMarkdown (tr : TextRun) : List Char :=
  let content0 := tr.content
  let style := tr.textStyle
  if content0 = [] ∨ content0 = ['\n'] then content0
  else
    let trailingNl := content0.getLast? == some '\n'
    let c1 := dropTrailingNl content0
    if c1 = [] then (if trailingNl then ['\n'] else [])
    else
      let c2 := if style.bold then ("**").data ++ c1 ++ ("**").data else c1
      let c3 := if style.italic then ("*").data ++ c2 ++ ("*").data else c2
      let c4 := if style.strikethrough then ("~~").data ++ c3 ++ ("~~").data else c3
      let url := style.link.getD []
      let c5 := if url ≠ [] then ("[").data ++ c4 ++ ("](").data ++ url ++ (")").data else c4
      if trailingNl then c5 ++ ['\n'] else c5

/-- The heading style map (gdocs_server.py lines 260-269). -/
def headingMap : List (List Char × List Char) :=
  [(("HEADING_1").data, ("# ").data),
   (("HEADING_2").data, ("## ").data),
   (("HEADING_3").data, ("### ").data),
   (("HEADING_4").data, ("#### ").data),
   (("HEADING_5").data, ("##### ").data),
   (("HEADING_6").data, ("###### ").data),
   (("TITLE").data, ("# ").data),
   (("SUBTITLE").data, ("## ").data)]

/-- Concatenation of the rendered text runs of a paragraph
(gdocs_server.py lines 252-257, before the rstrip). -/
def joinRunsOfPara (p : ParagraphData) : List Char :=
  (p.elements.filterMap (fun e =>
    match e with
    | ParagraphElement.textRun r => some (textRunToMarkdown r)
    | ParagraphElement.other => none)).flatten

/-- Two spaces of indent per nesting level (gdocs_server.py line 277). -/
def indentFor (n : Nat) : List Char :=
  (List.replicate n (("  ").data)).flatten

/-- Embedding of _paragraph_to_markdown (gdocs_server.py lines 246-291). -/
def paragraphToMarkdown (p : ParagraphData) (lists : ListsTable) : List Char :=
  let text := dropTrailingNl (joinRunsOfPara p)
  let pfx0 := (headingMap.lookup p.namedStyleType).getD []
  let pfx :=
    match p.bullet with
    | none => pfx0
    | some b =>
      let indent := indentFor b.nestingLevel
      let nls := (lists.lookup b.listId).getD []
      if nls ≠ [] ∧ b.nestingLevel < nls.length then
        let glyph := (nls.get? b.nestingLevel).getD []
        if glyph = ("DECIMAL").data ∨ glyph = ("ALPHA").data ∨ glyph = ("ROMAN").data
        then indent ++ ("1. ").data
        else indent ++ ("- ").data
      else indent ++ ("- ").data
  pfx ++ text

/-- Escape every pipe character as backslash-pipe
(Python replace on gdocs_server.py line 342). -/
def replacePipes : List Char → List Char
  | [] => []
  | c :: r => (if c = '|' then ['\\', '|'] else [c]) ++ replacePipes r

/-- Cell text: concatenation of the stripped run contents of the cell
paragraphs (gdocs_server.py lines 335-341). -/
def cellText (cell : Cell) : List Char :=
  (cell.map (fun p =>
    (p.elements.filterMap (fun e =>
      match e with
      | ParagraphElement.textRun r => some (stripStr r.content)
      | ParagraphElement.other => none)).flatten)).flatten

/-- The escaped cell texts of one table row (gdocs_server.py lines 333-342). -/
def rowCellTexts (row : Row) : List (List Char) :=
  row.map (fun c => replacePipes (cellText c))

/-- One rendered table row (gdocs_server.py line 344). -/
def mdRowOf (cts : List (List Char)) : List Char :=
  ("| ").data ++ joinSep (" | ").data cts ++ (" |").data

/-- The separator row emitted after the header row
(gdocs_server.py line 348). -/
def sepRowOf (n : Nat) : List Char :=
  ("| ").data ++ joinSep (" | ").data (List.replicate n (("---").data)) ++ (" |").data

/-- The indexed row loop of _table_to_markdown (gdocs_server.py lines
331-349): the separator is inserted after the row with index 0. -/
def tableRowsToMd : List Row → Nat → List (List Char)
  | [], _ => []
  | row :: rest, i =>
    let cts := rowCellTexts row
    ([mdRowOf cts] ++ (if i = 0 then [sepRowOf cts.length] else [])) ++ tableRowsToMd rest (i + 1)

/-- Embedding of _table_to_markdown (gdocs_server.py lines 324-351). -/
def tableToMarkdown (rows : List Row) : List Char :=
  if rows = [] then [] else joinSep ['\n'] (tableRowsToMd rows 0)

/-- Embedding of _doc_to_markdown (gdocs_server.py lines 227-244). -/
def docToMarkdown (content : List BlockElement) (lists : ListsTable) : List Char :=
  joinSep ['\n'] (content.filterMap (fun e =>
    match e with
    | BlockElement.paragraph p => some (paragraphToMarkdown p lists)
    | BlockElement.table rows => some (tableToMarkdown rows)
    | BlockElement.sectionBreak => some (("\n---\n").data)
    | BlockElement.other => none))

/-- Inline format kind recorded by _process_inline_markdown; the source
uses the strings bold, italic, strikethrough and link:url
(gdocs_server.py lines 483, 494, 505, 517). -/
inductive FmtStyle
  | bold
  | italic
  | strikethrough
  | link (url : List Char)
deriving DecidableEq

/-- An inline format span as recorded by _process_inline_markdown
(start and end offsets into the stripped text of the recording pass). -/
structure Fmt where
  fstart : Nat
  fend : Nat
  style : FmtStyle
deriving DecidableEq

/-- One regex match of an inline pass: absolute start in the scanned
text, total matched length, captured content, and (for links) the url. -/
structure MMatch where
  mstart : Nat
  mlen : Nat
  mcontent : List Char
  murl : List Char
deriving DecidableEq

/-- Scan for the earliest double occurrence of the delimiter character:
split body into content ++ [c, c] ++ rest for the first such occurrence,
failing on an intervening line break (the dot of the non-greedy group in
the patterns on gdocs_server.py lines 478 and 500 does not match a line
break). -/
def closeScan (c : Char) : List Char → Option (List Char × List Char)
  | [] => none
  | [_] => none
  | x :: y :: rest =>
    if x = c ∧ y = c then some ([], rest)
    else if x = '\n' then none
    else
      match closeScan c (y :: rest) with
      | some (cs, r) => some (x :: cs, r)
      | none => none

/-- Anchored match of a double-delimited group (the bold pattern with
c as the asterisk, the strikethrough pattern with c as the tilde): two
delimiters, a non-empty non-greedy content, two delimiters. Returns the
content and the text after the match. -/
def anchorPair (c : Char) (l : List Char) : Option (List Char × List Char) :=
  match l with
  | a :: b :: x :: body =>
    if a = c ∧ b = c ∧ x ≠ '\n' then
      match closeScan c body with
      | some (cs, rest) => some (x :: cs, rest)
      | none => none
    else none
  | _ => none

/-- Python finditer for the double-delimiter patterns (gdocs_server.py
lines 478 and 500): scan left to right, take each leftmost anchored
match, resume after it. The fuel argument only bounds the recursion; the
scanned suffix shrinks at every step, so fuel equal to the text length
is always enough. -/
def scanPairs (c : Char) : Nat → List Char → Nat → List MMatch
  | 0, _, _ => []
  | _ + 1, [], _ => []
  | fuel + 1, l, p =>
    match anchorPair c l with
    | some (cs, _) =>
      ⟨p, cs.length + 4, cs, []⟩ :: scanPairs c fuel (l.drop (cs.length + 4)) (p + cs.length + 4)
    | none =>
      match l with
      | [] => []
      | _ :: rest => scanPairs c fuel rest (p + 1)

/-- Split l into the part before the first occurrence of c and the part
after it (the greedy negated character classes of the italic and link
patterns admit no backtracking, so the first occurrence decides). -/
def splitAtChar (c : Char) : List Char → Option (List Char × List Char)
  | [] => none
  | x :: r =>
    if x = c then some ([], r)
    else
      match splitAtChar c r with
      | some (cs, rest) => some (x :: cs, rest)
      | none => none

/-- Anchored match of the italic pattern (gdocs_server.py line 489):
negative lookbehind for an asterisk (prev is the character before the
current position), an asterisk, non-empty asterisk-free content, an
asterisk, negative lookahead for an asterisk. -/
def italicAnchor (prev : Option Char) (l : List Char) : Option (List Char × List Char) :=
  match l with
  | s :: x :: body =>
    if s = '*' ∧ x ≠ '*' ∧ prev ≠ some '*' then
      match splitAtChar '*' body with
      | some (cs, rest) =>
        if rest.head? ≠ some '*' then some (x :: cs, rest) else none
      | none => none
    else none
  | _ => none

/-- Python finditer for the italic pattern: the lookbehind sees the
character preceding the current position, which after a match is the
closing asterisk of that match. -/
def scanItalic : Nat → Option Char → List Char → Nat → List MMatch
  | 0, _, _, _ => []
  | _ + 1, _, [], _ => []
  | fuel + 1, prev, l, p =>
    match italicAnchor prev l with
    | some (cs, _) =>
      ⟨p, cs.length + 2, cs, []⟩ :: scanItalic fuel (some '*') (l.drop (cs.length + 2)) (p + cs.length + 2)
    | none =>
      match l with
      | [] => []
      | ch :: rest => scanItalic fuel (some ch) rest (p + 1)

/-- Anchored match of the link pattern (gdocs_server.py line 511):
bracketed non-empty text without a closing bracket, then a parenthesized
non-empty url without a closing parenthesis. -/
def linkAnchor (l : List Char) : Option (List Char × List Char × List Char) :=
  match l with
  | br :: rest =>
    if br = '[' then
      match splitAtChar ']' rest with
      | some (txt, rest1) =>
        if txt ≠ [] then
          match rest1 with
          | po :: rest2 =>
            if po = '(' then
              match splitAtChar ')' rest2 with
              | some (url, rest3) => if url ≠ [] then some (txt, url, rest3) else none
              | none => none
            else none
          | [] => none
        else none
      | none => none
    else none
  | [] => none

/-- Python finditer for the link pattern. -/
def scanLinks : Nat → List Char → Nat → List MMatch
  | 0, _, _ => []
  | _ + 1, [], _ => []
  | fuel + 1, l, p =>
    match linkAnchor l with
    | some (txt, url, _) =>
      ⟨p, txt.length + url.length + 4, txt, url⟩ ::
        scanLinks fuel (l.drop (txt.length + url.length + 4)) (p + txt.length + url.length + 4)
    | none =>
      match l with
      | [] => []
      | _ :: rest => scanLinks fuel rest (p + 1)

/-- The per-match loop body shared by the four passes of
_process_inline_markdown (gdocs_server.py lines 478-518): each match is
replaced by its content at the offset-adjusted position and a span is
recorded. Match starts never fall below the running offset (each earlier
match removed its marker characters strictly before the current match),
so the truncated subtraction coincides with the Python int subtraction. -/
def applyPass (sty : List Char → FmtStyle) :
    List MMatch → List Char → Nat → List Fmt → List Char × List Fmt
  | [], result, _, fmts => (result, fmts)
  | m :: rest, result, offset, fmts =>
    let s := m.mstart - offset
    let e := s + m.mcontent.length
    applyPass sty rest
      (result.take s ++ m.mcontent ++ result.drop (s + m.mlen))
      (offset + (m.mlen - m.mcontent.length))
      (fmts ++ [⟨s, e, sty m.murl⟩])

/-- Embedding of _process_inline_markdown (gdocs_server.py lines
471-520): four sequential passes, each scanning the output of the
previous pass, all appending to one span list. -/
def processInlineMarkdown (text : List Char) : List Char × List Fmt :=
  let p1 := applyPass (fun _ => FmtStyle.bold) (scanPairs '*' text.length text 0) text 0 []
  let p2 := applyPass (fun _ => FmtStyle.italic) (scanItalic p1.1.length none p1.1 0) p1.1 0 p1.2
  let p3 := applyPass (fun _ => FmtStyle.strikethrough) (scanPairs '~' p2.1.length p2.1 0) p2.1 0 p2.2
  applyPass (fun u => FmtStyle.link u) (scanLinks p3.1.length p3.1 0) p3.1 0 p3.2

/-- Heading line pattern (gdocs_server.py line 369): one to six leading
hash characters followed by at least one whitespace character; returns
the level and the rest of the line after the greedy whitespace run. The
greedy quantifiers admit no other match, so the function is the regex. -/
def headingMatch (l : List Char) : Option (Nat × List Char) :=
  let h := (l.takeWhile (fun c => c == '#')).length
  if 1 ≤ h ∧ h ≤ 6 then
    match l.drop h with
    | c :: rest => if isPySpace c then some (h, rest.dropWhile isPySpace) else none
    | [] => none
  else none

/-- Unordered list pattern (gdocs_server.py line 376): leading
whitespace, a dash or asterisk, at least one whitespace character, rest.
Returns the captured leading whitespace and the rest of the line. -/
def bulletMatch (l : List Char) : Option (List Char × List Char) :=
  let sp := l.takeWhile isPySpace
  match l.dropWhile isPySpace with
  | m :: rest =>
    if m = '-' ∨ m = '*' then
      match rest with
      | d :: rest2 => if isPySpace d then some (sp, rest2.dropWhile isPySpace) else none
      | [] => none
    else none
  | [] => none

/-- Ordered list pattern (gdocs_server.py line 377): leading whitespace,
at least one digit, a dot, at least one whitespace character, rest. -/
def numberedMatch (l : List Char) : Option (List Char × List Char) :=
  let sp := l.takeWhile isPySpace
  let t := l.dropWhile isPySpace
  let ds := t.takeWhile Char.isDigit
  if ds ≠ [] then
    match t.drop ds.length with
    | '.' :: rest =>
      match rest with
      | d :: rest2 => if isPySpace d then some (sp, rest2.dropWhile isPySpace) else none
      | [] => none
    | _ => none
  else none

/-- The literal list marker the source prepends to unordered items
(gdocs_server.py line 382). The source file stores the UTF-8 bytes of
these three characters followed by a space, so the Python string literal
has length four. -/
def bulletGlyph : List Char := ['â', '€', '¢', ' ']

/-- The paragraph style string f-string HEADING_level for a single-digit
level (gdocs_server.py line 373; the regex bounds the level by six). -/
def headingStyleName (n : Nat) : List Char :=
  ("HEADING_").data ++ [Char.ofNat (48 + n)]

/-- Result of processing one markdown line (the per-line body of the
loop in _markdown_to_requests, gdocs_server.py lines 363-402). -/
structure PL where
  fullLine : List Char
  fmts : List Fmt
  styleType : Option (List Char)
  pfxLen : Nat
deriving DecidableEq

/-- Last step of the per-line processing: inline extraction on the
remaining text, then the emitted line is marker plus plain text plus a
line break (gdocs_server.py lines 389-390, 396). -/
def finishLine (line2 pfx : List Char) (styleType : Option (List Char)) : PL :=
  ⟨pfx ++ (processInlineMarkdown line2).1 ++ ['\n'],
   (processInlineMarkdown line2).2, styleType, pfx.length⟩

/-- List detection on the post-heading text (gdocs_server.py lines
376-386): the captured indentation only feeds the unused indent
variable, so it does not appear in the result. -/
def processLineRest (line1 : List Char) (styleType : Option (List Char)) : PL :=
  match bulletMatch line1 with
  | some (_, r) => finishLine r bulletGlyph styleType
  | none =>
    match numberedMatch line1 with
    | some (_, r) => finishLine r (("1. ").data) styleType
    | none => finishLine line1 [] styleType

/-- Per-line processing (gdocs_server.py lines 363-396): heading
detection first, then list detection on the stripped remainder. -/
def processLine (line0 : List Char) : PL :=
  match headingMatch line0 with
  | some (lvl, r) => processLineRest r (some (headingStyleName lvl))
  | none => processLineRest line0 none

/-- An entry of the formatting_requests list (gdocs_server.py lines
397-410): either an inline text-style range or a paragraph-style range. -/
inductive FmtEntry
  | inline (fstart fend : Nat) (style : FmtStyle)
  | para (styleType : List Char) (fstart fend : Nat)
deriving DecidableEq

/-- The formatting_requests entries contributed by one line (gdocs_server.py
lines 396-410): the shifted inline spans first, then the pending
paragraph-style entry. -/
def lineFmtEntries (startIndex : Nat) (pl : PL) : List FmtEntry :=
  pl.fmts.map (fun f =>
    FmtEntry.inline (startIndex + pl.pfxLen + f.fstart) (startIndex + pl.pfxLen + f.fend) f.style)
  ++ (match pl.styleType with
      | some st => [FmtEntry.para st startIndex (startIndex + pl.fullLine.length)]
      | none => [])

/-- The line loop of _markdown_to_requests (gdocs_server.py lines
359-412): collects the emitted line texts and the formatting entries,
advancing the cursor by the emitted line length. -/
def collectLines : List (List Char) → Nat → List (List Char) × List FmtEntry
  | [], _ => ([], [])
  | line :: rest, idx =>
    let pl := processLine line
    let r := collectLines rest (idx + pl.fullLine.length)
    (pl.fullLine :: r.1, lineFmtEntries idx pl ++ r.2)

/-- A Google Docs batchUpdate request as built by _markdown_to_requests
(gdocs_server.py lines 417-467); the constant fields strings are
determined by the style and are omitted. -/
inductive Request
  | insertText (index : Nat) (text : List Char)
  | updateParagraphStyle (startIndex endIndex : Nat) (namedStyleType : List Char)
  | updateTextStyle (startIndex endIndex : Nat) (style : FmtStyle)
deriving DecidableEq

/-- Rendering of one formatting entry into a request (gdocs_server.py
lines 425-467); every inline style yields a non-empty fields list, so no
entry is dropped. -/
def renderEntry : FmtEntry → Request
  | FmtEntry.para st s e => Request.updateParagraphStyle s e st
  | FmtEntry.inline s e sty => Request.updateTextStyle s e sty

/-- Embedding of _markdown_to_requests (gdocs_server.py lines 353-469):
split into lines, process each line from cursor 1, emit the single
insertion (when non-empty) followed by the rendered formatting entries. -/
def markdownToRequests (markdown : List Char) : List Request :=
  let tf := collectLines (splitNl markdown) 1
  let fullText := tf.1.flatten
  (if fullText ≠ [] then [Request.insertText 1 fullText] else []) ++ tf.2.map renderEntry

/-- Spec wording of the bold wrap (spec 4.1): wrap in double asterisks
when the flag is set. -/
def wrapBold (st : TextStyle) (x : List Char) : List Char :=
  if st.bold then ("**").data ++ x ++ ("**").data else x

/-- Spec wording of the italic wrap, applied to the already bold-wrapped
text (spec 4.1). -/
def wrapItalic (st : TextStyle) (x : List Char) : List Char :=
  if st.italic then ("*").data ++ x ++ ("*").data else x

/-- Spec wording of the strikethrough wrap (spec 4.1). -/
def wrapStrike (st : TextStyle) (x : List Char) : List Char :=
  if st.strikethrough then ("~~").data ++ x ++ ("~~").data else x

/-- Spec wording of the outermost link wrap (spec 4.1); a link flag with
an empty url counts as absent. -/
def wrapLink (st : TextStyle) (x : List Char) : List Char :=
  if st.link.getD [] ≠ [] then
    ("[").data ++ x ++ ("](").data ++ st.link.getD [] ++ (")").data
  else x

/-- Spec wording of the table block (spec 4.1 Tables): the first row
rendered as the header row, then a separator row with one dash triple
per header cell, then the remaining rows. -/
def specTableMd (r0 : Row) (rest : List Row) : List Char :=
  joinSep ['\n']
    (mdRowOf (rowCellTexts r0) :: sepRowOf (rowCellTexts r0).length ::
      rest.map (fun r => mdRowOf (rowCellTexts r)))

/-- Amended spec wording of the per-line operation group: the inline
text-style operations of the line first, then the paragraph-style
operation of the line. -/
def specLineOps (cursor : Nat) (line : List Char) : List Request :=
  let pl := processLine line
  pl.fmts.map (fun f =>
    Request.updateTextStyle (cursor + pl.pfxLen + f.fstart) (cursor + pl.pfxLen + f.fend) f.style)
  ++ (match pl.styleType with
      | some st => [Request.updateParagraphStyle cursor (cursor + pl.fullLine.length) st]
      | none => [])

/-- Amended spec wording of the style operation stream: the per-line
groups in input line order, each line advancing the cursor by its
emitted length. -/
def specOps : List (List Char) → Nat → List Request
  | [], _ => []
  | l :: rest, c => specLineOps c l ++ specOps rest (c + (processLine l).fullLine.length)

/-- Amended spec wording of the whole batch: the single insertion first
(when non-empty), then the per-line operation groups. -/
def specBatch (md : List Char) : List Request :=
  let ls := splitNl md
  let insertion := (ls.map (fun l => (processLine l).fullLine)).flatten
  (if insertion ≠ [] then [Request.insertText 1 insertion] else []) ++ specOps ls 1

/-- Decides whether some inline text-style operation is followed, later
in the batch, by some paragraph-style operation. -/
def isParaOp : Request → Bool
  | Request.updateParagraphStyle _ _ _ => true
  | _ => false

/-- Recognizer for inline text-style operations. -/
def isInlineOp : Request → Bool
  | Request.updateTextStyle _ _ _ => true
  | _ => false

/-- True when an inline text-style operation precedes some later
paragraph-style operation; the claimed batch order (all paragraph-style
operations before all inline operations) forces this to be false. -/
def inlineThenPara : List Request → Bool
  | [] => false
  | r :: rest => (isInlineOp r && rest.any isParaOp) || inlineThenPara rest

/-- Modelled from the spec: the application of an edit batch to an empty
document is performed by the external document-access collaborator (spec
section 6: deletion, then the single insertion, then paragraph-style
operations, then inline-style operations); the repository contains no
code for it. The text style at a document offset is the accumulation of
the updateTextStyle ranges covering it. -/
def styleAtOffset (reqs : List Request) (off : Nat) : TextStyle :=
  reqs.foldl (fun st r =>
    match r with
    | Request.updateTextStyle s e fs =>
      if s ≤ off ∧ off < e then
        match fs with
        | FmtStyle.bold => { st with bold := true }
        | FmtStyle.italic => { st with italic := true }
        | FmtStyle.strikethrough => { st with strikethrough := true }
        | FmtStyle.link u => { st with link := some u }
      else st
    | _ => st) ⟨false, false, false, none⟩

/-- Modelled from the spec: the named paragraph style applied by the
updateParagraphStyle operations whose range covers the given offset
(default NORMAL_TEXT). -/
def paraStyleAtOffset (reqs : List Request) (off : Nat) : List Char :=
  reqs.foldl (fun cur r =>
    match r with
    | Request.updateParagraphStyle s e st => if s ≤ off ∧ off < e then st else cur
    | _ => cur) (("NORMAL_TEXT").data)

/-- Modelled from the spec: the single contiguous insertion string of
the batch (spec section 3, Markdown Edit Batch). -/
def insertionTextOf (reqs : List Request) : List Char :=
  (reqs.filterMap (fun r =>
    match r with
    | Request.insertText _ t => some t
    | _ => none)).flatten

/-- Split inserted text into paragraph segments, each ending with its
line break (a trailing segment without a break is kept). -/
def splitParasAux (cur : List Char) : List Char → List (List Char)
  | [] => if cur = [] then [] else [cur.reverse]
  | c :: rest =>
    if c = '\n' then (cur.reverse ++ ['\n']) :: splitParasAux [] rest
    else splitParasAux (c :: cur) rest

/-- Paragraph segments of the inserted text. -/
def splitParas (l : List Char) : List (List Char) :=
  splitParasAux [] l

/-- Each character of a segment paired with the text style at its
document offset. -/
def charsWithStyles (reqs : List Request) : Nat → List Char → List (Char × TextStyle)
  | _, [] => []
  | start, c :: rest => (c, styleAtOffset reqs start) :: charsWithStyles reqs (start + 1) rest

/-- Group consecutive characters of equal style into text runs. -/
def groupRuns : List (Char × TextStyle) → List TextRun
  | [] => []
  | (c, st) :: rest =>
    match groupRuns rest with
    | [] => [⟨[c], st⟩]
    | r :: rs => if r.textStyle = st then ⟨c :: r.content, st⟩ :: rs else ⟨[c], st⟩ :: r :: rs

/-- Modelled from the spec: the paragraphs obtained by applying the
batch to an empty document anchored at offset 1; the deserializer emits
no structural bullet operation (spec section 9), so no paragraph
carries a bullet. -/
def parasFrom (reqs : List Request) : List (List Char) → Nat → List BlockElement
  | [], _ => []
  | seg :: rest, off =>
    BlockElement.paragraph
      ⟨paraStyleAtOffset reqs off, none,
       (groupRuns (charsWithStyles reqs off seg)).map ParagraphElement.textRun⟩
      :: parasFrom reqs rest (off + seg.length)

/-- Modelled from the spec: applying the deserializer output batch to an
empty document (spec sections 3 and 6). -/
def applyToEmptyDoc (reqs : List Request) : List BlockElement :=
  parasFrom reqs (splitParas (insertionTextOf reqs)) 1

/-- The document tree of one unordered flat list item, used as failing
input for the round-trip property. -/
def bulletTree : List BlockElement :=
  [BlockElement.paragraph ⟨("NORMAL_TEXT").data, some ⟨("list1").data, 0⟩,
    [ParagraphElement.textRun ⟨("item\n").data, ⟨false, false, false, none⟩⟩]⟩]

/-- The list style table for bulletTree: one list with one unordered
level. -/
def bulletLists : ListsTable :=
  [(("list1").data, [("GLYPH_TYPE_UNSPECIFIED").data])]

theorem anchorPair_none (c a : Char) (t : List Char) (h : ¬ a = c) :
    anchorPair c (a :: t) = none := by
  cases t with
  | nil => rfl
  | cons b t2 =>
    cases t2 with
    | nil => rfl
    | cons x body => simp [anchorPair, h]

theorem scanPairs_nil (c : Char) :
    ∀ (fuel : Nat) (l : List Char) (p : Nat), (∀ x ∈ l, ¬ x = c) →
      scanPairs c fuel l p = [] := by
  intro fuel
  induction fuel with
  | zero => intro l p _; rfl
  | succ n ih =>
    intro l p h
    cases l with
    | nil => rfl
    | cons a t =>
      have ha : ¬ a = c := h a (List.mem_cons_self a t)
      simp only [scanPairs, anchorPair_none c a t ha]
      exact ih t (p + 1) (fun x hx => h x (List.mem_cons_of_mem a hx))

theorem italicAnchor_none (prev : Option Char) (a : Char) (t : List Char) (h : ¬ a = '*') :
    italicAnchor prev (a :: t) = none := by
  cases t with
  | nil => rfl
  | cons x body => simp [italicAnchor, h]

theorem scanItalic_nil :
    ∀ (fuel : Nat) (prev : Option Char) (l : List Char) (p : Nat),
      (∀ x ∈ l, ¬ x = '*') → scanItalic fuel prev l p = [] := by
  intro fuel
  induction fuel with
  | zero => intro prev l p _; rfl
  | succ n ih =>
    intro prev l p h
    cases l with
    | nil => rfl
    | cons a t =>
      have ha : ¬ a = '*' := h a (List.mem_cons_self a t)
      simp only [scanItalic, italicAnchor_none prev a t ha]
      exact ih (some a) t (p + 1) (fun x hx => h x (List.mem_cons_of_mem a hx))

theorem linkAnchor_none (a : Char) (t : List Char) (h : ¬ a = '[') :
    linkAnchor (a :: t) = none := by
  simp [linkAnchor, h]

theorem scanLinks_nil :
    ∀ (fuel : Nat) (l : List Char) (p : Nat),
      (∀ x ∈ l, ¬ x = '[') → scanLinks fuel l p = [] := by
  intro fuel
  induction fuel with
  | zero => intro l p _; rfl
  | succ n ih =>
    intro l p h
    cases l with
    | nil => rfl
    | cons a t =>
      have ha : ¬ a = '[' := h a (List.mem_cons_self a t)
      simp only [scanLinks, linkAnchor_none a t ha]
      exact ih t (p + 1) (fun x hx => h x (List.mem_cons_of_mem a hx))

/-- C1: the claim asserts that every span returned by the inline
extractor satisfies start ≤ end ≤ length of the returned plain text and
that every emitted style operation stays inside the insertion range.
The code violates this: on the input star i star space bold-b the bold
pass records its span against the bold-stripped text, the italic pass
then shortens the text, and the stale bold span (end 5) exceeds the
final plain text length 3; the deserializer then emits a text-style
operation over offsets 5..6 although the insertion occupies 1..5. -/
theorem C1_offset_bug :
    processInlineMarkdown (("*i* **b**").data) =
      ((("i b").data), [(⟨4, 5, FmtStyle.bold⟩ : Fmt), ⟨0, 1, FmtStyle.italic⟩]) ∧
    (("i b").data).length = 3 ∧
    markdownToRequests (("*i* **b**").data) =
      [Request.insertText 1 (("i b\n").data),
       Request.updateTextStyle 5 6 FmtStyle.bold,
       Request.updateTextStyle 1 2 FmtStyle.italic] ∧
    1 + (("i b\n").data).length = 5 := by
  decide

/-- C2 counterexample: on a heading line containing a bold span the
batch places the inline bold operation before the paragraph-style
operation, refuting the claim that every paragraph-style operation
precedes every inline-format operation. -/
theorem C2_counterexample :
    markdownToRequests (("# **b** t").data) =
      [Request.insertText 1 (("b t\n").data),
       Request.updateTextStyle 1 2 FmtStyle.bold,
       Request.updateParagraphStyle 1 5 (("HEADING_1").data)] ∧
    inlineThenPara (markdownToRequests (("# **b** t").data)) = true := by
  decide

/-- C3: the claim asserts round-trip stability for trees built from the
supported subset including flat unordered lists. It fails: serializing
a one-item unordered list yields a dash item line, deserializing emits
only the literal glyph text with no structural bullet operation, so
re-serializing the applied document yields the glyph text, not the dash
line. -/
theorem C3_roundtrip_bug :
    docToMarkdown bulletTree bulletLists = ("- item").data ∧
    docToMarkdown (applyToEmptyDoc (markdownToRequests (docToMarkdown bulletTree bulletLists))) [] =
      ("â€¢ item").data ∧
    ("â€¢ item").data ≠ ("- item").data := by
  decide

/-- C6: a heading line with a bold span yields exactly one HEADING_1
paragraph-style operation spanning the whole emitted line including its
trailing break, and exactly one inline bold span over the four
characters of the word bold in the post-strip text; stated for an
arbitrary cursor position and also for the whole-document batch. -/
theorem C6_heading_precedence :
    ∀ c : Nat,
      processLine (("# **bold** text").data) =
        ⟨("bold text\n").data, [⟨0, 4, FmtStyle.bold⟩], some (("HEADING_1").data), 0⟩ ∧
      lineFmtEntries c (processLine (("# **bold** text").data)) =
        [FmtEntry.inline c (c + 4) FmtStyle.bold,
         FmtEntry.para (("HEADING_1").data) c (c + 10)] ∧
      markdownToRequests (("# **bold** text").data) =
        [Request.insertText 1 (("bold text\n").data),
         Request.updateTextStyle 1 5 FmtStyle.bold,
         Request.updateParagraphStyle 1 11 (("HEADING_1").data)] := by
  intro c
  have hpl : processLine (("# **bold** text").data) =
      ⟨("bold text\n").data, [⟨0, 4, FmtStyle.bold⟩], some (("HEADING_1").data), 0⟩ := by
    decide
  have hlen : (("bold text\n").data).length = 10 := by decide
  refine ⟨hpl, ?_, by decide⟩
  rw [hpl]
  simp [lineFmtEntries, hlen]

theorem collectLines_fst (ls : List (List Char)) :
    ∀ idx : Nat, (collectLines ls idx).1 = ls.map (fun l => (processLine l).fullLine) := by
  induction ls with
  | nil => intro idx; rfl
  | cons l rest ih => intro idx; simp [collectLines, ih]

theorem lineOps_render (idx : Nat) (line : List Char) :
    (lineFmtEntries idx (processLine line)).map renderEntry = specLineOps idx line := by
  simp only [lineFmtEntries, specLineOps, List.map_append, List.map_map]
  cases (processLine line).styleType <;> simp [renderEntry, Function.comp]

theorem collectLines_snd (ls : List (List Char)) :
    ∀ idx : Nat, (collectLines ls idx).2.map renderEntry = specOps ls idx := by
  induction ls with
  | nil => intro idx; rfl
  | cons l rest ih =>
    intro idx
    simp only [collectLines, specOps, List.map_append, ih, lineOps_render]

/-- C2 amended: the batch is the single insertion first (when the
insertion text is non-empty), then the style operations grouped per
input line in order, each group listing the inline text-style
operations of the line first and its paragraph-style operation last. -/
theorem C2_amended_order :
    ∀ md : List Char, markdownToRequests md = specBatch md := by
  intro md
  simp only [markdownToRequests, specBatch]
  rw [collectLines_fst, collectLines_snd]

theorem tableRowsToMd_of_ne (rows : List Row) :
    ∀ i : Nat, i ≠ 0 →
      tableRowsToMd rows i = rows.map (fun r => mdRowOf (rowCellTexts r)) := by
  induction rows with
  | nil => intro i _; rfl
  | cons r rest ih =>
    intro i hi
    simp [tableRowsToMd, hi, ih (i + 1) (Nat.succ_ne_zero i)]

/-- C8: a non-empty table renders its first row as the header row,
followed immediately by one dash-triple separator per header cell and
then the remaining rows; pipes in cell text are escaped and cell text
is the concatenation of the stripped run contents, as the concrete
instances show. -/
theorem C8_table :
    (∀ (r0 : Row) (rest : List Row),
        tableToMarkdown (r0 :: rest) = specTableMd r0 rest) ∧
    replacePipes (("a|b").data) = ("a\\|b").data ∧
    tableToMarkdown
        [[[⟨("NORMAL_TEXT").data, none,
            [ParagraphElement.textRun ⟨(" a|b ").data, ⟨false, false, false, none⟩⟩]⟩]]] =
      ("| a\\|b |\n| --- |").data := by
  refine ⟨?_, by decide, by decide⟩
  intro r0 rest
  simp [tableToMarkdown, tableRowsToMd, specTableMd, tableRowsToMd_of_ne rest 1 (by decide)]

/-- C7: when the nesting level of a bullet reaches or exceeds the
number of recorded levels of its list (in particular when the list is
unknown), the paragraph falls back to the unordered glyph at that
indentation; a nesting level of three against a table recording two
levels yields six spaces and the dash glyph. -/
theorem C7_list_fallback :
    (∀ (p : ParagraphData) (lists : ListsTable) (b : BulletDesc),
        p.bullet = some b →
        ((lists.lookup b.listId).getD []).length ≤ b.nestingLevel →
        paragraphToMarkdown p lists =
          indentFor b.nestingLevel ++ ("- ").data ++ dropTrailingNl (joinRunsOfPara p)) ∧
    indentFor 3 ++ ("- ").data = ("      - ").data ∧
    paragraphToMarkdown
        ⟨("NORMAL_TEXT").data, some ⟨("L").data, 3⟩,
         [ParagraphElement.textRun ⟨("x").data, ⟨false, false, false, none⟩⟩]⟩
        [(("L").data, [("DECIMAL").data, ("DECIMAL").data])] =
      ("      - x").data := by
  refine ⟨?_, by decide, by decide⟩
  intro p lists b hb hlen
  have hcond : ¬(((lists.lookup b.listId).getD []) ≠ [] ∧
      b.nestingLevel < ((lists.lookup b.listId).getD []).length) := by
    rintro ⟨_, hlt⟩
    omega
  simp [paragraphToMarkdown, hb, hcond]

/-- C4: for a run whose payload is non-empty after stripping the
trailing line break, the rendering is the fixed composition of wraps in
the order bold, italic, strikethrough, link (each skipped when its flag
is absent), with the stripped trailing break re-appended last; a
bold-italic run on the text hi renders as the italic wrap of the
bold-wrapped text, which is the literal triple-asterisk form. -/
theorem C4_wrap_order :
    (∀ (content : List Char) (st : TextStyle),
        dropTrailingNl content ≠ [] →
        textRunToMarkdown ⟨content, st⟩ =
          wrapLink st (wrapStrike st (wrapItalic st (wrapBold st (dropTrailingNl content)))) ++
            (if content.getLast? == some '\n' then ['\n'] else [])) ∧
    textRunToMarkdown ⟨("hi").data, ⟨true, true, false, none⟩⟩ = ("***hi***").data ∧
    textRunToMarkdown ⟨("hi").data, ⟨true, true, false, none⟩⟩ =
      wrapItalic ⟨true, true, false, none⟩
        (wrapBold ⟨true, true, false, none⟩ (("hi").data)) := by
  refine ⟨?_, by decide, by decide⟩
  intro content st h
  have h0 : ¬(content = [] ∨ content = ['\n']) := by
    rintro (rfl | rfl)
    · exact h rfl
    · exact h (by decide)
  cases htn : (content.getLast? == some '\n') <;>
    · simp only [textRunToMarkdown, wrapBold, wrapItalic, wrapStrike, wrapLink, htn]
      rw [if_neg h0, if_neg h]
      simp

theorem dropTrailingNl_concat (l : List Char) (h : l.getLast? ≠ some '\n') :
    dropTrailingNl (l ++ ['\n']) = l := by
  unfold dropTrailingNl
  rw [List.reverse_append]
  simp only [List.reverse_cons, List.reverse_nil, List.nil_append, List.singleton_append,
    List.dropWhile_cons]
  simp only [beq_self_eq_true, if_true]
  cases hl : l.reverse with
  | nil =>
    have : l = [] := by simpa using congrArg List.reverse hl
    simp [this]
  | cons a t =>
    have hga : l.getLast? = some a := by
      rw [← List.head?_reverse, hl]
      rfl
    have ha : ¬((a == '\n') = true) := by
      simp only [beq_iff_eq]
      intro heq
      exact h (by rw [hga, heq])
    rw [List.dropWhile_cons, if_neg ha, ← hl]
    simp

/-- C5: a run payload ending in a single trailing line break renders
with that break re-appended at the very end, outside every wrap: the
output is the wrapped stripped text (or nothing, for a lone break)
followed by the break. -/
theorem C5_trailing_break :
    ∀ (c0 : List Char) (st : TextStyle),
      c0.getLast? ≠ some '\n' →
      textRunToMarkdown ⟨c0 ++ ['\n'], st⟩ =
        (if c0 = [] then []
         else wrapLink st (wrapStrike st (wrapItalic st (wrapBold st c0)))) ++ ['\n'] := by
  intro c0 st h
  by_cases hc : c0 = []
  · subst hc
    simp [textRunToMarkdown]
  · have h1 : ¬(c0 ++ ['\n'] = [] ∨ c0 ++ ['\n'] = ['\n']) := by
      rintro (habs | habs)
      · simp at habs
      · have : c0 = [] := by
          have := congrArg List.dropLast habs
          simpa using this
        exact hc this
    have h2 : ((c0 ++ ['\n']).getLast? == some '\n') = true := by
      simp
    have h3 : dropTrailingNl (c0 ++ ['\n']) = c0 := dropTrailingNl_concat c0 h
    simp only [textRunToMarkdown, wrapBold, wrapItalic, wrapStrike, wrapLink, h2, h3]
    rw [if_neg h1, if_neg hc]
    simp [hc]

/-- C9: the engine is total and degrades instead of failing: the inline
extractor returns marker-free text unchanged with no spans (an
unbalanced single asterisk is left as literal text), an unknown
paragraph style tag yields the empty heading marker, and an
unresolvable list style falls back to the unordered glyph. Every
embedded conversion function is total by construction, matching the
absence of raising code in the source. -/
theorem C9_totality :
    (∀ s : List Char, (∀ x ∈ s, x ≠ '*' ∧ x ≠ '~' ∧ x ≠ '[') →
        processInlineMarkdown s = (s, [])) ∧
    (∀ (p : ParagraphData) (lists : ListsTable),
        p.bullet = none → headingMap.lookup p.namedStyleType = none →
        paragraphToMarkdown p lists = dropTrailingNl (joinRunsOfPara p)) ∧
    processInlineMarkdown (("*ab").data) = ((("*ab").data), []) ∧
    paragraphToMarkdown
        ⟨("NORMAL_TEXT").data, some ⟨("missing").data, 0⟩,
         [ParagraphElement.textRun ⟨("x").data, ⟨false, false, false, none⟩⟩]⟩ [] =
      ("- x").data := by
  refine ⟨?_, ?_, by decide, by decide⟩
  · intro s h
    have h1 : scanPairs '*' s.length s 0 = [] :=
      scanPairs_nil '*' s.length s 0 (fun x hx => (h x hx).1)
    have h2 : scanItalic s.length none s 0 = [] :=
      scanItalic_nil s.length none s 0 (fun x hx => (h x hx).1)
    have h3 : scanPairs '~' s.length s 0 = [] :=
      scanPairs_nil '~' s.length s 0 (fun x hx => (h x hx).2.1)
    have h4 : scanLinks s.length s 0 = [] :=
      scanLinks_nil s.length s 0 (fun x hx => (h x hx).2.2)
    simp only [processInlineMarkdown, h1, applyPass, h2, h3, h4]
  · intro p lists hb hl
    simp [paragraphToMarkdown, hb, hl]

/-- C10: a line recognized as a list item has its leading indentation
dropped: the emitted line is exactly the fixed marker text (the glyph
characters for unordered items, the digit-dot marker for ordered items)
plus the processed item text plus the line break, independent of the
captured indentation, and the computed indentation level contributes to
no emitted operation. -/
theorem C10_list_indent_dropped :
    (∀ (line sp rest : List Char),
        headingMatch line = none →
        bulletMatch line = some (sp, rest) →
        processLine line =
          ⟨bulletGlyph ++ (processInlineMarkdown rest).1 ++ ['\n'],
           (processInlineMarkdown rest).2, none, 4⟩) ∧
    (∀ (line sp rest : List Char),
        headingMatch line = none →
        bulletMatch line = none →
        numberedMatch line = some (sp, rest) →
        processLine line =
          ⟨("1. ").data ++ (processInlineMarkdown rest).1 ++ ['\n'],
           (processInlineMarkdown rest).2, none, 3⟩) := by
  constructor
  · intro line sp rest h1 h2
    have hg : bulletGlyph.length = 4 := by decide
    simp [processLine, h1, processLineRest, h2, finishLine, hg]
  · intro line sp rest h1 h2 h3
    have hg : (("1. ").data).length = 3 := by decide
    simp [processLine, h1, processLineRest, h2, h3, finishLine, hg]

/-- Witness for C4 at a concrete bold run with trailing break. -/
theorem C4_witness :
    dropTrailingNl (("x\n").data) ≠ [] ∧
    textRunToMarkdown ⟨("x\n").data, ⟨true, false, false, none⟩⟩ =
      wrapLink ⟨true, false, false, none⟩
          (wrapStrike ⟨true, false, false, none⟩
            (wrapItalic ⟨true, false, false, none⟩
              (wrapBold ⟨true, false, false, none⟩ (dropTrailingNl (("x\n").data))))) ++
        (if (("x\n").data).getLast? == some '\n' then ['\n'] else []) :=
  ⟨by decide, C4_wrap_order.1 (("x\n").data) ⟨true, false, false, none⟩ (by decide)⟩

/-- Witness for C5 at a concrete italic run. -/
theorem C5_witness :
    textRunToMarkdown ⟨("x").data ++ ['\n'], ⟨false, true, false, none⟩⟩ =
      (if ("x").data = [] then []
       else wrapLink ⟨false, true, false, none⟩
         (wrapStrike ⟨false, true, false, none⟩
           (wrapItalic ⟨false, true, false, none⟩
             (wrapBold ⟨false, true, false, none⟩ (("x").data))))) ++ ['\n'] :=
  C5_trailing_break (("x").data) ⟨false, true, false, none⟩ (by decide)

/-- Witness for C7 at a nesting level of three against two recorded
levels. -/
theorem C7_witness :
    paragraphToMarkdown
        ⟨("NORMAL_TEXT").data, some ⟨("L").data, 3⟩,
         [ParagraphElement.textRun ⟨("y").data, ⟨false, false, false, none⟩⟩]⟩
        [(("L").data, [("DECIMAL").data, ("DECIMAL").data])] =
      indentFor 3 ++ ("- ").data ++
        dropTrailingNl (joinRunsOfPara
          ⟨("NORMAL_TEXT").data, some ⟨("L").data, 3⟩,
           [ParagraphElement.textRun ⟨("y").data, ⟨false, false, false, none⟩⟩]⟩) :=
  C7_list_fallback.1
    ⟨("NORMAL_TEXT").data, some ⟨("L").data, 3⟩,
     [ParagraphElement.textRun ⟨("y").data, ⟨false, false, false, none⟩⟩]⟩
    [(("L").data, [("DECIMAL").data, ("DECIMAL").data])]
    ⟨("L").data, 3⟩ rfl (by decide)

/-- Witness for C9 at a marker-free string. -/
theorem C9_witness :
    processInlineMarkdown (("hello").data) = ((("hello").data), []) :=
  C9_totality.1 (("hello").data) (by decide)

/-- Witness for C10 at an indented unordered item. -/
theorem C10_witness :
    processLine (("  - hi").data) =
      ⟨bulletGlyph ++ (processInlineMarkdown (("hi").data)).1 ++ ['\n'],
       (processInlineMarkdown (("hi").data)).2, none, 4⟩ :=
  C10_list_indent_dropped.1 (("  - hi").data) (("  ").data) (("hi").data)
    (by decide) (by decide)

end GDocs
